import Mathlib

/-!
Shallow embedding of the board-state and notation layer of the Walleye
chess engine (src/board.rs), together with proofs of the specification
claims about it.  Machine bytes (`u8`) are modelled as `Nat`, the Rust
`i32` material sums as `Int` (every reachable sum stays far below the
`i32` range, so no wrap-around is modelled), and Rust panics (failed
`unwrap`, out-of-bounds indexing) as an explicit `panicked` outcome.
-/

namespace Walleye

/-- Outcome of a Rust computation that can return normally, return an
`Err`, or panic (failed `unwrap` / out-of-bounds index). -/
inductive PRes (α : Type) where
  | ok : α → PRes α
  | err : String → PRes α
  | panicked : PRes α
deriving DecidableEq, Repr

def PRes.isOk {α : Type} : PRes α → Bool
  | .ok _ => true
  | _ => false

/-- `pub const COLOR_MASK: u8 = 0b10000000;` -/
def COLOR_MASK : Nat := 128

/-- `pub const WHITE: u8 = 0b10000000;` -/
def WHITE : Nat := 128

/-- `pub const BLACK: u8 = 0b00000000;` -/
def BLACK : Nat := 0

/-- `pub const PIECE_MASK: u8 = 0b00000111;` -/
def PIECE_MASK : Nat := 7

/-- `pub const PAWN: u8 = 0b00000001;` -/
def PAWN : Nat := 1

/-- `pub const KNIGHT: u8 = 0b00000010;` -/
def KNIGHT : Nat := 2

/-- `pub const BISHOP: u8 = 0b00000011;` -/
def BISHOP : Nat := 3

/-- `pub const ROOK: u8 = 0b00000100;` -/
def ROOK : Nat := 4

/-- `pub const QUEEN: u8 = 0b00000101;` -/
def QUEEN : Nat := 5

/-- `pub const KING: u8 = 0b00000110;` -/
def KING : Nat := 6

/-- `pub const EMPTY: u8 = 0;` -/
def EMPTY : Nat := 0

/-- `pub const SENTINEL: u8 = 0b11111111;` -/
def SENTINEL : Nat := 255

/-- `pub const BOARD_START: usize = 2;` -/
def BOARD_START : Nat := 2

/-- `pub const BOARD_END: usize = 10;` -/
def BOARD_END : Nat := 10

/-- `type Point = (usize, usize);` -/
abbrev Point := Nat × Nat

/-- `pub enum PieceColor { Black, White }` -/
inductive PieceColor where
  | Black : PieceColor
  | White : PieceColor
deriving DecidableEq, Repr

/-- `fn is_empty(square: u8) -> bool { square == EMPTY }` -/
def is_empty (square : Nat) : Bool :=
  square == EMPTY

/-- `fn is_outside_board(square: u8) -> bool { square == SENTINEL }` -/
def is_outside_board (square : Nat) : Bool :=
  square == SENTINEL

/-- `fn get_color(square: u8) -> Option<PieceColor>` from src/board.rs. -/
def get_color (square : Nat) : Option PieceColor :=
  if is_empty square || is_outside_board square then
    none
  else if Nat.land square COLOR_MASK == WHITE then
    some PieceColor.White
  else
    some PieceColor.Black

/-- `fn is_white(square: u8) -> bool` from src/board.rs. -/
def is_white (square : Nat) : Bool :=
  !is_empty square && Nat.land square COLOR_MASK == WHITE

/-- `fn is_black(square: u8) -> bool` from src/board.rs. -/
def is_black (square : Nat) : Bool :=
  !is_empty square && Nat.land square COLOR_MASK == BLACK

/-- `fn is_pawn(square: u8) -> bool` from src/board.rs. -/
def is_pawn (square : Nat) : Bool :=
  Nat.land square PIECE_MASK == PAWN

/-- `fn is_knight(square: u8) -> bool` from src/board.rs. -/
def is_knight (square : Nat) : Bool :=
  Nat.land square PIECE_MASK == KNIGHT

/-- `fn is_bishop(square: u8) -> bool` from src/board.rs. -/
def is_bishop (square : Nat) : Bool :=
  Nat.land square PIECE_MASK == BISHOP

/-- `fn is_rook(square: u8) -> bool` from src/board.rs. -/
def is_rook (square : Nat) : Bool :=
  Nat.land square PIECE_MASK == ROOK

/-- `fn is_queen(square: u8) -> bool` from src/board.rs. -/
def is_queen (square : Nat) : Bool :=
  Nat.land square PIECE_MASK == QUEEN

/-- `fn is_king(square: u8) -> bool` from src/board.rs. -/
def is_king (square : Nat) : Bool :=
  Nat.land square PIECE_MASK == KING

/-- Byte length of a Rust `&str`, i.e. the sum of the UTF-8 sizes of its
characters (`str::len` counts bytes, not characters). -/
def utf8Len (s : List Char) : Nat :=
  s.foldl (fun n c => n + c.utf8Size) 0

/-- `fn algebraic_pairs_to_board_position(pair: &str) -> Option<Point>`
from src/board.rs.  The two leading `unwrap()` calls on `chars().nth(..)`
and the `unwrap()` on `to_digit(10)` are modelled as `panicked`; the
function's own `return None` paths are `ok none`. -/
def algebraic_pairs_to_board_position (pair : List Char) : PRes (Option Point) :=
  if utf8Len pair ≠ 2 then
    .ok none
  else
    match pair with
    | [] => .panicked
    | c :: rest =>
      let col? : Option Nat :=
        match c with
        | 'a' => some 0
        | 'b' => some 1
        | 'c' => some 2
        | 'd' => some 3
        | 'e' => some 4
        | 'f' => some 5
        | 'g' => some 6
        | 'h' => some 7
        | _ => none
      match rest with
      | [] => .panicked
      | r :: _ =>
        match col? with
        | none => .ok none
        | some col =>
          if r.isDigit then
            let row := BOARD_END - (r.toNat - '0'.toNat)
            if ¬(BOARD_START ≤ row ∧ row < BOARD_END) then
              .ok none
            else
              .ok (some (row, col + BOARD_START))
          else
            .panicked

/-- `fn board_position_to_algebraic_pair(pair: Point) -> String` from
src/board.rs: the column letter followed by the row digit, with the
source's silent `_ =>` fallbacks for out-of-range coordinates. -/
def board_position_to_algebraic_pair (pair : Point) : List Char :=
  let row : Char :=
    match pair.1 with
    | 2 => '8'
    | 3 => '7'
    | 4 => '6'
    | 5 => '5'
    | 6 => '4'
    | 7 => '3'
    | 8 => '2'
    | 9 => '1'
    | _ => '1'
  let col : Char :=
    match pair.2 with
    | 2 => 'a'
    | 3 => 'b'
    | 4 => 'c'
    | 5 => 'd'
    | 6 => 'e'
    | 7 => 'f'
    | 8 => 'g'
    | 9 => 'h'
    | _ => 'h'
  [col, row]

/-- `fn get_piece_from_fen_string_char(piece: char) -> Option<u8>`
from src/board.rs. -/
def get_piece_from_fen_string_char (piece : Char) : Option Nat :=
  match piece with
  | 'r' => some (BLACK + ROOK)
  | 'n' => some (BLACK + KNIGHT)
  | 'b' => some (BLACK + BISHOP)
  | 'q' => some (BLACK + QUEEN)
  | 'k' => some (BLACK + KING)
  | 'p' => some (BLACK + PAWN)
  | 'R' => some (WHITE + ROOK)
  | 'N' => some (WHITE + KNIGHT)
  | 'B' => some (WHITE + BISHOP)
  | 'Q' => some (WHITE + QUEEN)
  | 'K' => some (WHITE + KING)
  | 'P' => some (WHITE + PAWN)
  | _ => none

/-- Modelled from the spec: the `PIECE_VALUES` table lives in the
engine module of the repository, which is not under src/; §4.3 of the
spec fixes the standard values pawn=100, knight=320, bishop=330,
rook=500, queen=900, king=20000, indexed by the piece-kind bits. -/
def PIECE_VALUES : List Int :=
  [0, 100, 320, 330, 500, 900, 20000]

/-- Modelled from the spec: the `trim_newline` helper lives in the utils
module of the repository, which is not under src/; the spec treats the
input as the raw notation string, so this models the conventional
removal of one trailing line feed (and a carriage return before it). -/
def trim_newline (s : List Char) : List Char :=
  match s.reverse with
  | '\n' :: rest =>
    match rest with
    | '\r' :: rest2 => rest2.reverse
    | _ => rest.reverse
  | _ => s

/-- Rust `str::split(sep)`: `n` separators yield `n+1` pieces, and the
empty string yields one empty piece. -/
def splitOnChar (sep : Char) : List Char → List (List Char)
  | [] => [[]]
  | c :: cs =>
    let r := splitOnChar sep cs
    if c = sep then
      [] :: r
    else
      match r with
      | [] => [[c]]
      | p :: ps => (c :: p) :: ps

/-- Rust `str::parse::<u8>()`: an optional leading `+`, then one or more
ASCII digits, value at most 255, nothing else accepted. -/
def parseU8 (s : List Char) : Option Nat :=
  let digits :=
    match s with
    | '+' :: rest => rest
    | _ => s
  if digits.isEmpty then
    none
  else if digits.all Char.isDigit then
    let v := digits.foldl (fun a c => a * 10 + (c.toNat - '0'.toNat)) 0
    if v < 256 then some v else none
  else
    none

/-- The 12×12 mailbox array `[[u8; 12]; 12]`, as a total function; cells
with indices of 12 or more are never read or written on non-panicking
paths. -/
abbrev Grid := Nat → Nat → Nat

/-- `board[row][col] = v`. -/
def setCell (g : Grid) (row col v : Nat) : Grid :=
  fun i j => if i = row ∧ j = col then v else g i j

/-- `let mut board = [[SENTINEL; 12]; 12];` -/
def initGrid : Grid := fun _ _ => SENTINEL

/-- `for _ in 0..square_skip_count { board[row][col] = EMPTY; col += 1; }` -/
def writeEmptyRun (g : Grid) (row col : Nat) : Nat → Grid
  | 0 => g
  | k + 1 => writeEmptyRun (setCell g row col EMPTY) row (col + 1) k

/-- The mutable locals of `board_from_fen`'s placement loop
(src/board.rs lines 293-298). -/
structure RowState where
  board : Grid
  row : Nat
  col : Nat
  white_king_location : Point
  black_king_location : Point
  white_piece_values : Int
  black_piece_values : Int

/-- `let mut row = BOARD_START; let mut col = BOARD_START;` with the
all-sentinel grid, `(0, 0)` king caches and zero material sums. -/
def initRowState : RowState :=
  { board := initGrid
    row := BOARD_START
    col := BOARD_START
    white_king_location := (0, 0)
    black_king_location := (0, 0)
    white_piece_values := 0
    black_piece_values := 0 }

/-- One iteration of `for square in fen_row.chars()` in `board_from_fen`
(src/board.rs lines 300-328).  Indexing `board[row][col]` with an index
of 12 or more is a Rust panic, modelled as `panicked`. -/
def fenRowStep (st : RowState) (square : Char) : PRes RowState :=
  if square.isDigit then
    let square_skip_count := square.toNat - '0'.toNat
    if square_skip_count + st.col > BOARD_END then
      .err "Could not parse fen string: Index out of bounds"
    else if square_skip_count ≠ 0 ∧ 12 ≤ st.row then
      .panicked
    else
      .ok { st with
              board := writeEmptyRun st.board st.row st.col square_skip_count
              col := st.col + square_skip_count }
  else
    match get_piece_from_fen_string_char square with
    | none => .err "Could not parse fen string: Invalid character found"
    | some piece =>
      if 12 ≤ st.row ∨ 12 ≤ st.col then
        .panicked
      else if is_white piece then
        .ok { st with
                board := setCell st.board st.row st.col piece
                col := st.col + 1
                white_piece_values := st.white_piece_values +
                  (PIECE_VALUES.getD (Nat.land piece PIECE_MASK) 0)
                white_king_location :=
                  if is_king piece then (st.row, st.col)
                  else st.white_king_location }
      else
        .ok { st with
                board := setCell st.board st.row st.col piece
                col := st.col + 1
                black_piece_values := st.black_piece_values +
                  (PIECE_VALUES.getD (Nat.land piece PIECE_MASK) 0)
                black_king_location :=
                  if is_king piece then (st.row, st.col)
                  else st.black_king_location }

/-- The inner `for square in fen_row.chars()` loop, with `Err` and panic
short-circuiting the whole parse. -/
def processRowChars (st : RowState) : List Char → PRes RowState
  | [] => .ok st
  | c :: cs =>
    match fenRowStep st c with
    | .ok st1 => processRowChars st1 cs
    | .err e => .err e
    | .panicked => .panicked

/-- The outer `for fen_row in fen_rows` loop of `board_from_fen`: after
each rank-group the column cursor must sit exactly at `BOARD_END`, then
the row advances and the column resets (src/board.rs lines 299-335). -/
def processRows (st : RowState) : List (List Char) → PRes RowState
  | [] => .ok st
  | r :: rs =>
    match processRowChars st r with
    | .ok st1 =>
      if st1.col ≠ BOARD_END then
        .err "Could not parse fen string: Complete row was not specified"
      else
        processRows { st1 with row := st1.row + 1, col := BOARD_START } rs
    | .err e => .err e
    | .panicked => .panicked

/-- `pub struct BoardState` from src/board.rs. -/
structure BoardState where
  full_move_clock : Nat
  half_move_clock : Nat
  board : Grid
  to_move : PieceColor
  pawn_double_move : Option Point
  white_king_location : Point
  black_king_location : Point
  white_king_side_castle : Bool
  white_queen_side_castle : Bool
  black_king_side_castle : Bool
  black_queen_side_castle : Bool
  black_total_piece_value : Int
  white_total_piece_value : Int
  last_move : Option (List Char)

/-- The six space-separated FEN fields after newline trimming. -/
def fenFields (fen : List Char) : List (List Char) :=
  splitOnChar ' ' (trim_newline fen)

/-- The final `Ok(BoardState { .. })` record of `board_from_fen`
(src/board.rs lines 347-362). -/
def assembleBoardState (f2 : List Char) (to_move : PieceColor)
    (half_move_clock full_move_clock : Nat) (st : RowState)
    (en_passant_pos : Option Point) : BoardState :=
  { full_move_clock := full_move_clock
    half_move_clock := half_move_clock
    board := st.board
    to_move := to_move
    pawn_double_move := en_passant_pos
    white_king_location := st.white_king_location
    black_king_location := st.black_king_location
    white_king_side_castle := f2.contains 'K'
    white_queen_side_castle := f2.contains 'Q'
    black_king_side_castle := f2.contains 'k'
    black_queen_side_castle := f2.contains 'q'
    black_total_piece_value := st.black_piece_values
    white_total_piece_value := st.white_piece_values
    last_move := none }

/-- The en-passant handling of `board_from_fen` (src/board.rs lines
337-345) followed by the final assembly: a field of byte length other
than 2 must be `"-"`, anything of byte length 2 goes through
`algebraic_pairs_to_board_position` and its result — even `None` — is
stored without further validation. -/
def board_from_fen_en_passant (f2 f3 : List Char) (to_move : PieceColor)
    (half_move_clock full_move_clock : Nat) (st : RowState) : PRes BoardState :=
  if utf8Len f3 ≠ 2 then
    if f3 ≠ ['-'] then
      .err "Could not parse fen string: En passant string not valid"
    else
      .ok (assembleBoardState f2 to_move half_move_clock full_move_clock st none)
  else
    match algebraic_pairs_to_board_position f3 with
    | .ok en_passant_pos =>
      .ok (assembleBoardState f2 to_move half_move_clock full_move_clock st
            en_passant_pos)
    | .err e => .err e
    | .panicked => .panicked

/-- The remainder of `board_from_fen` once the six fields and the side
to move are in hand: clock parsing, rank-group count, the placement
loop, then the en-passant field. -/
def board_from_fen_after_to_move (f0 f2 f3 f4 f5 : List Char)
    (to_move : PieceColor) : PRes BoardState :=
  match parseU8 f4 with
  | none => .err "Could not parse fen string: Invalid half move value"
  | some half_move_clock =>
    match parseU8 f5 with
    | none => .err "Could not parse fen string: Invalid full move value"
    | some full_move_clock =>
      let fen_rows := splitOnChar '/' f0
      if fen_rows.length ≠ 8 then
        .err "Could not parse fen string: Invalid number of rows provided, 8 expected"
      else
        match processRows initRowState fen_rows with
        | .err e => .err e
        | .panicked => .panicked
        | .ok st =>
          board_from_fen_en_passant f2 f3 to_move half_move_clock
            full_move_clock st

/-- `pub fn board_from_fen(fen: &str) -> Result<BoardState, &str>` from
src/board.rs, mirroring the source's check order: field count, side to
move, then `board_from_fen_after_to_move`. -/
def board_from_fen (fen : List Char) : PRes BoardState :=
  match fenFields fen with
  | [f0, f1, f2, f3, f4, f5] =>
    match f1 with
    | ['w'] => board_from_fen_after_to_move f0 f2 f3 f4 f5 PieceColor.White
    | ['b'] => board_from_fen_after_to_move f0 f2 f3 f4 f5 PieceColor.Black
    | _ => .err "Could not parse fen string: Next player to move was not provided"
  | _ => .err "Could not parse fen string: Invalid fen string"

/-- Whether `board_from_fen` succeeds. -/
def fenOk (fen : List Char) : Bool :=
  (board_from_fen fen).isOk

/-- The decoded board state of a successful `board_from_fen` call (an
arbitrary fixed state when the call does not succeed). -/
def fenState (fen : List Char) : BoardState :=
  match board_from_fen fen with
  | .ok bs => bs
  | _ =>
    { full_move_clock := 0
      half_move_clock := 0
      board := initGrid
      to_move := PieceColor.White
      pawn_double_move := none
      white_king_location := (0, 0)
      black_king_location := (0, 0)
      white_king_side_castle := false
      white_queen_side_castle := false
      black_king_side_castle := false
      black_queen_side_castle := false
      black_total_piece_value := 0
      white_total_piece_value := 0
      last_move := none }

/-- `pub const DEFAULT_FEN_STRING` from src/board.rs. -/
def DEFAULT_FEN_STRING : List Char :=
  "rnbqkbnr/pppppppp/8/8/8/8/PPPPPPPP/RNBQKBNR w KQkq - 0 1".toList

/-- The byte values that the placement loop can write into a playing
cell: the empty square and the twelve codes produced by
`get_piece_from_fen_string_char`. -/
def goodSquares : List Nat :=
  [EMPTY,
   BLACK + ROOK, BLACK + KNIGHT, BLACK + BISHOP,
   BLACK + QUEEN, BLACK + KING, BLACK + PAWN,
   WHITE + ROOK, WHITE + KNIGHT, WHITE + BISHOP,
   WHITE + QUEEN, WHITE + KING, WHITE + PAWN]

/-- The standard piece value a square contributes to white's material
sum: its `PIECE_VALUES` entry when it holds a white piece, else 0. -/
def whiteVal (v : Nat) : Int :=
  if is_white v then PIECE_VALUES.getD (Nat.land v PIECE_MASK) 0 else 0

/-- The standard piece value a square contributes to black's material
sum: its `PIECE_VALUES` entry when it holds a black piece, else 0. -/
def blackVal (v : Nat) : Int :=
  if is_black v then PIECE_VALUES.getD (Nat.land v PIECE_MASK) 0 else 0

/-- Sum of a per-square contribution over the 8×8 playing surface
(rows and columns 2..9) of a grid. -/
def gridColorSum (g : Grid) (f : Nat → Int) : Int :=
  ∑ i ∈ Finset.Ico 2 10, ∑ j ∈ Finset.Ico 2 10, f (g i j)

/-- The state of a normally-returning loop outcome (an arbitrary given
state otherwise); used to name intermediate parser states concretely. -/
def okState (r : PRes RowState) (d : RowState) : RowState :=
  match r with
  | .ok s => s
  | _ => d

/-- Invariant relating the placement-loop state before and after
processing a stretch of characters of one rank-group: the row is
unchanged, the column only advances, all writes are confined to the
columns passed over in that row and produce legal square values, the
material sums grow by exactly the written material, and each cached
king location is either untouched (with no matching king written) or
points at a matching king written in the passed-over columns. -/
structure RowInv (st st' : RowState) : Prop where
  row_eq : st'.row = st.row
  col_le : st.col ≤ st'.col
  frame : ∀ i j, i ≠ st.row ∨ j < st.col ∨ st'.col ≤ j →
    st'.board i j = st.board i j
  good : ∀ j, st.col ≤ j → j < st'.col → st'.board st.row j ∈ goodSquares
  wsum : st'.white_piece_values = st.white_piece_values +
    ∑ j ∈ Finset.Ico st.col st'.col, whiteVal (st'.board st.row j)
  bsum : st'.black_piece_values = st.black_piece_values +
    ∑ j ∈ Finset.Ico st.col st'.col, blackVal (st'.board st.row j)
  wking : (st'.white_king_location = st.white_king_location ∧
      ∀ j, st.col ≤ j → j < st'.col → st'.board st.row j ≠ WHITE + KING) ∨
    (st'.white_king_location.1 = st.row ∧
      st.col ≤ st'.white_king_location.2 ∧
      st'.white_king_location.2 < st'.col ∧
      st'.board st.row st'.white_king_location.2 = WHITE + KING)
  bking : (st'.black_king_location = st.black_king_location ∧
      ∀ j, st.col ≤ j → j < st'.col → st'.board st.row j ≠ BLACK + KING) ∨
    (st'.black_king_location.1 = st.row ∧
      st.col ≤ st'.black_king_location.2 ∧
      st'.black_king_location.2 < st'.col ∧
      st'.board st.row st'.black_king_location.2 = BLACK + KING)

/-- Invariant relating the placement-loop state before and after
processing `n` complete rank-groups: the row advances by `n`, the
column returns to the left margin, all writes are confined to the
playing columns of the processed rows and produce legal square values,
the material sums grow by exactly the written material, and each
cached king location is either untouched (with no matching king in the
processed region) or points at a matching king inside it. -/
structure RowsInv (st st' : RowState) (n : Nat) : Prop where
  row_eq : st'.row = st.row + n
  col_eq : st'.col = BOARD_START
  frame : ∀ i j, i < st.row ∨ st.row + n ≤ i ∨ j < 2 ∨ 10 ≤ j →
    st'.board i j = st.board i j
  good : ∀ i j, st.row ≤ i → i < st.row + n → 2 ≤ j → j < 10 →
    st'.board i j ∈ goodSquares
  wsum : st'.white_piece_values = st.white_piece_values +
    ∑ i ∈ Finset.Ico st.row (st.row + n),
      ∑ j ∈ Finset.Ico 2 10, whiteVal (st'.board i j)
  bsum : st'.black_piece_values = st.black_piece_values +
    ∑ i ∈ Finset.Ico st.row (st.row + n),
      ∑ j ∈ Finset.Ico 2 10, blackVal (st'.board i j)
  wking : (st'.white_king_location = st.white_king_location ∧
      ∀ i j, st.row ≤ i → i < st.row + n → 2 ≤ j → j < 10 →
        st'.board i j ≠ WHITE + KING) ∨
    (st.row ≤ st'.white_king_location.1 ∧
      st'.white_king_location.1 < st.row + n ∧
      2 ≤ st'.white_king_location.2 ∧ st'.white_king_location.2 < 10 ∧
      st'.board st'.white_king_location.1 st'.white_king_location.2 =
        WHITE + KING)
  bking : (st'.black_king_location = st.black_king_location ∧
      ∀ i j, st.row ≤ i → i < st.row + n → 2 ≤ j → j < 10 →
        st'.board i j ≠ BLACK + KING) ∨
    (st.row ≤ st'.black_king_location.1 ∧
      st'.black_king_location.1 < st.row + n ∧
      2 ≤ st'.black_king_location.2 ∧ st'.black_king_location.2 < 10 ∧
      st'.board st'.black_king_location.1 st'.black_king_location.2 =
        BLACK + KING)

end Walleye

/-!
Concrete evaluations mirroring the unit tests of src/board.rs
(`algebraic_translation_correct`, `empty_board`, `starting_pos`,
`correct_en_passant_privileges`, `correct_king_location`,
`correct_king_location_two`, `random_pos`, `bad_fen_string`, and the
two bad-placement tests), validating the embedding against the
source's own expectations.
-/
section SourceUnitTests
open Walleye
example : algebraic_pairs_to_board_position ("a8".toList) = .ok (some (2, 2)) := by decide
example : algebraic_pairs_to_board_position ("h1".toList) = .ok (some (9, 9)) := by decide
example : algebraic_pairs_to_board_position ("c5".toList) = .ok (some (5, 4)) := by decide
example : algebraic_pairs_to_board_position ("z1".toList) = .ok none := by decide
example : algebraic_pairs_to_board_position ("a11".toList) = .ok none := by decide
example : algebraic_pairs_to_board_position ("ax".toList) = .panicked := by decide
example : board_position_to_algebraic_pair (2, 2) = "a8".toList := by decide
example : board_position_to_algebraic_pair (4, 6) = "e6".toList := by decide
example : is_white SENTINEL = true := by decide
example : fenOk ("8/8/8/8/8/8/8/8 w KQkq - 0 1".toList) = true := by decide
example : fenOk ("rnbqkbnr/pppppppp/8/8/8/8/PPPPPPPP/RNBQKBNR w KQkq - 0 1".toList) = true := by decide
example :
    (fenState ("rnbqkbnr/pppppppp/8/8/8/8/PPPPPPPP/RNBQKBNR w KQkq - 0 1".toList)).board 2 2
      = BLACK + ROOK := by decide
example :
    (fenState ("rnbqkbnr/pppppppp/8/8/8/8/PPPPPPPP/RNBQKBNR w KQkq - 0 1".toList)).board 9 6
      = WHITE + KING := by decide
example :
    (fenState ("rnbqkbnr/pppppppp/8/8/8/8/PPPPPPPP/RNBQKBNR w KQkq - 0 1".toList)).white_king_location
      = (9, 6) := by decide
example :
    (fenState ("rnbqkbnr/pppppppp/8/8/8/8/PPPPPPPP/RNBQKBNR w KQkq - 0 1".toList)).black_king_location
      = (2, 6) := by decide
example :
    (fenState ("rnbqkbnr/pppppppp/8/8/8/8/PPPPPPPP/RNBQKBNR w KQkq - 0 1".toList)).white_total_piece_value
      = 24000 := by decide
example :
    (fenState ("6rk/1b4np/5pp1/1p6/8/1P3NP1/1B3P1P/5RK1 w KQkq - 0 1".toList)).black_king_location
      = (2, 9) := by decide
example :
    (fenState ("6rk/1b4np/5pp1/1p6/8/1P3NP1/1B3P1P/5RK1 w KQkq - 0 1".toList)).white_king_location
      = (9, 8) := by decide
example :
    (fenState ("rnbqkbnr/pppppppp/8/8/4P3/8/PPPP1PPP/RNBQKBNR w KQkq e4 0 1".toList)).pawn_double_move
      = some (6, 6) := by decide
example : fenOk ("this is no fen string at all".toList) = false := by decide
example : fenOk ("rnbqkbnH/pppppppp/8/8/8/8/PPPPPPPP/RNBQKBNR w KQkq - 0 1".toList) = false := by decide
example : fenOk ("rnbqkbnrrrrr/pppppppp/8/8/8/8/PPPPPPPP/RNBQKBNR w KQkq - 0 1".toList) = false := by decide
example : fenOk ("8/8/8/8/8/8/8/8 w - z4 0 1".toList) = true := by decide
example :
    (fenState ("8/8/8/8/8/8/8/8 w - z4 0 1".toList)).pawn_double_move = none := by decide
example :
    (fenState ("4R1B1/1kp5/1B1Q4/1P5p/1p2p1pK/8/3pP3/4N1b1 w - - 0 1".toList)).board 6 9
      = WHITE + KING := by decide
end SourceUnitTests

namespace Walleye

/-- C2: the claim says `algebraic_pairs_to_board_position` never
crashes, but on the two-character input "ax" — first character a valid
file letter, second character not an ASCII digit — the source reaches
`r.to_digit(10).unwrap()` with `to_digit` returning `None`, and the
`unwrap` panics. -/
theorem c2_algebraic_panics_on_nondigit_rank :
    algebraic_pairs_to_board_position ("ax".toList) = .panicked := by
  decide

/-- C3 (counterexample): the claim states `is_white SENTINEL = false`,
but the sentinel byte 0b11111111 has the color bit set and `is_white`
only excludes the empty square, so `is_white SENTINEL = true`. -/
theorem c3_counterexample :
    is_white SENTINEL = true := by
  decide

/-- C3 (amended): `get_color` returns `none` on both the empty square
and the sentinel, `is_white` and `is_black` return `false` on the empty
square, and `is_black SENTINEL = false`; however `is_white SENTINEL =
true`, because `is_white` checks only non-emptiness and the color bit
and the sentinel has the color bit set. -/
theorem c3_color_predicates_amended :
    get_color EMPTY = none ∧ get_color SENTINEL = none ∧
    is_white EMPTY = false ∧ is_black EMPTY = false ∧
    is_black SENTINEL = false ∧ is_white SENTINEL = true := by
  decide

/-- C7: every piece-kind predicate returns `false` on the empty square
and on the sentinel, because the empty square's masked kind bits are 0,
the sentinel's are 7, and the six kind constants are all nonzero and
distinct from 7. -/
theorem c7_kind_predicates_safe_on_empty_and_sentinel :
    is_pawn EMPTY = false ∧ is_knight EMPTY = false ∧
    is_bishop EMPTY = false ∧ is_rook EMPTY = false ∧
    is_queen EMPTY = false ∧ is_king EMPTY = false ∧
    is_pawn SENTINEL = false ∧ is_knight SENTINEL = false ∧
    is_bishop SENTINEL = false ∧ is_rook SENTINEL = false ∧
    is_queen SENTINEL = false ∧ is_king SENTINEL = false ∧
    Nat.land EMPTY PIECE_MASK = 0 ∧ Nat.land SENTINEL PIECE_MASK = 7 ∧
    PAWN ≠ 0 ∧ KNIGHT ≠ 0 ∧ BISHOP ≠ 0 ∧ ROOK ≠ 0 ∧ QUEEN ≠ 0 ∧ KING ≠ 0 ∧
    PAWN ≠ 7 ∧ KNIGHT ≠ 7 ∧ BISHOP ≠ 7 ∧ ROOK ≠ 7 ∧ QUEEN ≠ 7 ∧ KING ≠ 7 := by
  decide

/-- C10: `board_position_to_algebraic_pair` is total and silently
clamps: for every input point it returns a two-character file-then-rank
text, where a row outside 2..9 yields rank character `1` and a column
outside 2..9 yields file character `h`. -/
theorem c10_board_to_algebraic_total_and_clamps (p : Point) :
    ∃ f r, board_position_to_algebraic_pair p = [f, r] ∧
      f ∈ ['a', 'b', 'c', 'd', 'e', 'f', 'g', 'h'] ∧
      r ∈ ['1', '2', '3', '4', '5', '6', '7', '8'] ∧
      (¬(2 ≤ p.1 ∧ p.1 ≤ 9) → r = '1') ∧
      (¬(2 ≤ p.2 ∧ p.2 ≤ 9) → f = 'h') := by
  obtain ⟨a, b⟩ := p
  simp only [board_position_to_algebraic_pair]
  refine ⟨_, _, rfl, ?_, ?_, ?_, ?_⟩
  · split <;> decide
  · split <;> decide
  · intro h
    split <;> first | rfl | (exfalso; omega)
  · intro h
    split <;> first | rfl | (exfalso; omega)

/-- C10 (witness): the clamping behavior at the concrete off-board
point (0, 0). -/
theorem c10_board_to_algebraic_total_and_clamps_witness :
    ∃ f r, board_position_to_algebraic_pair (0, 0) = [f, r] ∧
      f = 'h' ∧ r = '1' := by
  obtain ⟨f, r, h1, _, _, h4, h5⟩ :=
    c10_board_to_algebraic_total_and_clamps (0, 0)
  exact ⟨f, r, h1, h5 (by decide), h4 (by decide)⟩

/-- C6: the coordinate conversions are mutually inverse — converting a
playing-surface point to algebraic text and back returns the same
point, and converting well-formed algebraic text to a point and back
returns the same text. -/
theorem c6_coordinate_roundtrip :
    (∀ row col, 2 ≤ row → row ≤ 9 → 2 ≤ col → col ≤ 9 →
      algebraic_pairs_to_board_position
          (board_position_to_algebraic_pair (row, col)) =
        .ok (some (row, col))) ∧
    (∀ f r : Char, f ∈ ['a', 'b', 'c', 'd', 'e', 'f', 'g', 'h'] →
      r ∈ ['1', '2', '3', '4', '5', '6', '7', '8'] →
      ∃ p, algebraic_pairs_to_board_position [f, r] = .ok (some p) ∧
        board_position_to_algebraic_pair p = [f, r]) := by
  constructor
  · intro row col h1 h2 h3 h4
    interval_cases row <;> interval_cases col <;> decide
  · intro f r hf hr
    fin_cases hf <;> fin_cases hr <;> exact ⟨_, rfl, rfl⟩

theorem setCell_apply (g : Grid) (r c v i j : Nat) :
    setCell g r c v i j = if i = r ∧ j = c then v else g i j := rfl

theorem writeEmptyRun_apply (k : Nat) :
    ∀ (g : Grid) (row col i j : Nat),
      writeEmptyRun g row col k i j =
        if i = row ∧ col ≤ j ∧ j < col + k then EMPTY else g i j := by
  induction k with
  | zero =>
    intro g row col i j
    rw [writeEmptyRun, if_neg (by omega)]
  | succ k ih =>
    intro g row col i j
    rw [writeEmptyRun, ih, setCell_apply]
    split_ifs <;> first | rfl | omega

theorem piece_code_mem (c : Char) (v : Nat)
    (h : get_piece_from_fen_string_char c = some v) :
    v ∈ goodSquares ∧ v ≠ EMPTY := by
  unfold get_piece_from_fen_string_char at h
  split at h <;> first | exact Option.noConfusion h |
    (injection h with h; subst h; decide)

theorem goodSquares_ne_sentinel (v : Nat) (h : v ∈ goodSquares) :
    v ≠ SENTINEL := by
  fin_cases h <;> decide

theorem white_not_black (v : Nat) (h : is_white v = true) :
    is_black v = false := by
  cases hb : is_black v with
  | false => rfl
  | true =>
    exfalso
    unfold is_white at h
    unfold is_black at hb
    rw [Bool.and_eq_true] at h hb
    have h2 := h.2
    have hb2 := hb.2
    rw [beq_iff_eq] at h2 hb2
    exact absurd (h2.symm.trans hb2) (by decide)

theorem piece_king_facts (v : Nat) (hv : v ∈ goodSquares) :
    (is_white v = true → is_king v = true → v = WHITE + KING) ∧
    (is_white v = false → is_king v = true → v = BLACK + KING) ∧
    (is_king v = false → v ≠ WHITE + KING ∧ v ≠ BLACK + KING) ∧
    (is_white v = true → v ≠ BLACK + KING) ∧
    (is_white v = false → v ≠ WHITE + KING) ∧
    (is_white v = false → whiteVal v = 0) ∧
    (is_white v = true →
      whiteVal v = PIECE_VALUES.getD (Nat.land v PIECE_MASK) 0) ∧
    (is_white v = false →
      blackVal v = PIECE_VALUES.getD (Nat.land v PIECE_MASK) 0) := by
  fin_cases hv <;> decide

theorem setCell_self (g : Grid) (r c v : Nat) :
    setCell g r c v r c = v := by
  rw [setCell_apply, if_pos ⟨rfl, rfl⟩]

theorem fenRowStep_ok_inv (st : RowState) (c : Char) (st' : RowState)
    (h : fenRowStep st c = .ok st') :
    st'.row = st.row ∧
    st.col ≤ st'.col ∧
    (∀ i j, i ≠ st.row ∨ j < st.col ∨ st'.col ≤ j →
      st'.board i j = st.board i j) ∧
    (∀ j, st.col ≤ j → j < st'.col → st'.board st.row j ∈ goodSquares) ∧
    st'.white_piece_values = st.white_piece_values +
      ∑ j ∈ Finset.Ico st.col st'.col, whiteVal (st'.board st.row j) ∧
    st'.black_piece_values = st.black_piece_values +
      ∑ j ∈ Finset.Ico st.col st'.col, blackVal (st'.board st.row j) ∧
    ((st'.white_king_location = st.white_king_location ∧
      ∀ j, st.col ≤ j → j < st'.col → st'.board st.row j ≠ WHITE + KING) ∨
     (st'.white_king_location.1 = st.row ∧
      st.col ≤ st'.white_king_location.2 ∧
      st'.white_king_location.2 < st'.col ∧
      st'.board st.row st'.white_king_location.2 = WHITE + KING)) ∧
    ((st'.black_king_location = st.black_king_location ∧
      ∀ j, st.col ≤ j → j < st'.col → st'.board st.row j ≠ BLACK + KING) ∨
     (st'.black_king_location.1 = st.row ∧
      st.col ≤ st'.black_king_location.2 ∧
      st'.black_king_location.2 < st'.col ∧
      st'.board st.row st'.black_king_location.2 = BLACK + KING)) := by
  simp only [fenRowStep] at h
  split at h
  · -- digit character
    split at h
    · exact PRes.noConfusion h
    · split at h
      · exact PRes.noConfusion h
      · injection h with h
        subst h
        dsimp only
        refine ⟨rfl, Nat.le_add_right _ _, ?_, ?_, ?_, ?_, ?_, ?_⟩
        · intro i j hij
          rw [writeEmptyRun_apply, if_neg (by omega)]
        · intro j h1 h2
          rw [writeEmptyRun_apply, if_pos (by omega)]
          decide
        · rw [self_eq_add_right]
          apply Finset.sum_eq_zero
          intro j hj
          rw [Finset.mem_Ico] at hj
          rw [writeEmptyRun_apply, if_pos (by omega)]
          decide
        · rw [self_eq_add_right]
          apply Finset.sum_eq_zero
          intro j hj
          rw [Finset.mem_Ico] at hj
          rw [writeEmptyRun_apply, if_pos (by omega)]
          decide
        · refine Or.inl ⟨rfl, ?_⟩
          intro j h1 h2
          rw [writeEmptyRun_apply, if_pos (by omega)]
          decide
        · refine Or.inl ⟨rfl, ?_⟩
          intro j h1 h2
          rw [writeEmptyRun_apply, if_pos (by omega)]
          decide
  · -- non-digit character
    split at h
    · exact PRes.noConfusion h
    · next piece hp =>
      obtain ⟨hmem, -⟩ := piece_code_mem _ _ hp
      obtain ⟨hwk, hbk, hnk, hwnbk, hbnwk, hw0, hwv, hbv⟩ :=
        piece_king_facts piece hmem
      split at h
      · exact PRes.noConfusion h
      · split at h
        · -- white piece
          next hw =>
          injection h with h
          subst h
          dsimp only
          refine ⟨rfl, Nat.le_add_right _ _, ?_, ?_, ?_, ?_, ?_, ?_⟩
          · intro i j hij
            rw [setCell_apply, if_neg (by omega)]
          · intro j h1 h2
            have hj : j = st.col := by omega
            subst hj
            rw [setCell_self]
            exact hmem
          · rw [Finset.sum_Ico_succ_top (le_refl st.col), Finset.Ico_self,
              Finset.sum_empty, zero_add, setCell_self, hwv hw]
          · rw [Finset.sum_Ico_succ_top (le_refl st.col), Finset.Ico_self,
              Finset.sum_empty, zero_add, setCell_self]
            have hb0 : blackVal piece = 0 := by
              simp [blackVal, white_not_black piece hw]
            rw [hb0, add_zero]
          · cases hk : is_king piece with
            | true =>
              refine Or.inr ?_
              rw [if_pos rfl]
              refine ⟨rfl, le_refl _, by omega, ?_⟩
              rw [setCell_self]
              exact hwk hw hk
            | false =>
              rw [if_neg Bool.false_ne_true]
              refine Or.inl ⟨rfl, ?_⟩
              intro j h1 h2
              have hj : j = st.col := by omega
              subst hj
              rw [setCell_self]
              exact (hnk hk).1
          · refine Or.inl ⟨rfl, ?_⟩
            intro j h1 h2
            have hj : j = st.col := by omega
            subst hj
            rw [setCell_self]
            exact hwnbk hw
        · -- black piece
          next hw =>
          injection h with h
          subst h
          have hwf : is_white piece = false := by
            cases hx : is_white piece with
            | false => rfl
            | true => exact absurd hx hw
          dsimp only
          refine ⟨rfl, Nat.le_add_right _ _, ?_, ?_, ?_, ?_, ?_, ?_⟩
          · intro i j hij
            rw [setCell_apply, if_neg (by omega)]
          · intro j h1 h2
            have hj : j = st.col := by omega
            subst hj
            rw [setCell_self]
            exact hmem
          · rw [Finset.sum_Ico_succ_top (le_refl st.col), Finset.Ico_self,
              Finset.sum_empty, zero_add, setCell_self, hw0 hwf, add_zero]
          · rw [Finset.sum_Ico_succ_top (le_refl st.col), Finset.Ico_self,
              Finset.sum_empty, zero_add, setCell_self, hbv hwf]
          · refine Or.inl ⟨rfl, ?_⟩
            intro j h1 h2
            have hj : j = st.col := by omega
            subst hj
            rw [setCell_self]
            exact hbnwk hwf
          · cases hk : is_king piece with
            | true =>
              refine Or.inr ?_
              rw [if_pos rfl]
              refine ⟨rfl, le_refl _, by omega, ?_⟩
              rw [setCell_self]
              exact hbk hwf hk
            | false =>
              rw [if_neg Bool.false_ne_true]
              refine Or.inl ⟨rfl, ?_⟩
              intro j h1 h2
              have hj : j = st.col := by omega
              subst hj
              rw [setCell_self]
              exact (hnk hk).2

theorem RowInv.refl (st : RowState) : RowInv st st := by
  refine ⟨rfl, le_refl _, fun i j _ => rfl, ?_, ?_, ?_, ?_, ?_⟩
  · intro j h1 h2
    exact absurd h2 (by omega)
  · rw [Finset.Ico_self, Finset.sum_empty, add_zero]
  · rw [Finset.Ico_self, Finset.sum_empty, add_zero]
  · refine Or.inl ⟨rfl, ?_⟩
    intro j h1 h2
    exact absurd h2 (by omega)
  · refine Or.inl ⟨rfl, ?_⟩
    intro j h1 h2
    exact absurd h2 (by omega)

theorem RowInv.trans {a b c : RowState} (hab : RowInv a b)
    (hbc : RowInv b c) : RowInv a c := by
  obtain ⟨r1, c1, f1, g1, w1, v1, wk1, bk1⟩ := hab
  obtain ⟨r2, c2, f2, g2, w2, v2, wk2, bk2⟩ := hbc
  refine ⟨r2.trans r1, le_trans c1 c2, ?_, ?_, ?_, ?_, ?_, ?_⟩
  · intro i j hij
    exact (f2 i j (by omega)).trans (f1 i j (by omega))
  · intro j hj1 hj2
    by_cases hj : j < b.col
    · rw [f2 a.row j (by omega)]
      exact g1 j hj1 hj
    · rw [← r1]
      exact g2 j (by omega) hj2
  · rw [w2, w1, r1]
    have hcg : ∑ j ∈ Finset.Ico a.col b.col, whiteVal (b.board a.row j) =
        ∑ j ∈ Finset.Ico a.col b.col, whiteVal (c.board a.row j) := by
      refine Finset.sum_congr rfl ?_
      intro j hj
      rw [Finset.mem_Ico] at hj
      rw [f2 a.row j (by omega)]
    rw [hcg, add_assoc, Finset.sum_Ico_consecutive _ c1 c2]
  · rw [v2, v1, r1]
    have hcg : ∑ j ∈ Finset.Ico a.col b.col, blackVal (b.board a.row j) =
        ∑ j ∈ Finset.Ico a.col b.col, blackVal (c.board a.row j) := by
      refine Finset.sum_congr rfl ?_
      intro j hj
      rw [Finset.mem_Ico] at hj
      rw [f2 a.row j (by omega)]
    rw [hcg, add_assoc, Finset.sum_Ico_consecutive _ c1 c2]
  · rcases wk2 with ⟨e2, n2⟩ | ⟨k1, k2, k3, k4⟩
    · rcases wk1 with ⟨e1, n1⟩ | ⟨k1, k2, k3, k4⟩
      · refine Or.inl ⟨e2.trans e1, ?_⟩
        intro j hj1 hj2
        by_cases hj : j < b.col
        · rw [f2 a.row j (by omega)]
          exact n1 j hj1 hj
        · rw [← r1]
          exact n2 j (by omega) hj2
      · refine Or.inr ⟨?_, ?_, ?_, ?_⟩
        · rw [e2]
          exact k1
        · rw [e2]
          exact k2
        · rw [e2]
          omega
        · rw [e2, f2 a.row b.white_king_location.2 (by omega)]
          exact k4
    · refine Or.inr ⟨k1.trans r1, by omega, k3, ?_⟩
      rw [← r1]
      exact k4
  · rcases bk2 with ⟨e2, n2⟩ | ⟨k1, k2, k3, k4⟩
    · rcases bk1 with ⟨e1, n1⟩ | ⟨k1, k2, k3, k4⟩
      · refine Or.inl ⟨e2.trans e1, ?_⟩
        intro j hj1 hj2
        by_cases hj : j < b.col
        · rw [f2 a.row j (by omega)]
          exact n1 j hj1 hj
        · rw [← r1]
          exact n2 j (by omega) hj2
      · refine Or.inr ⟨?_, ?_, ?_, ?_⟩
        · rw [e2]
          exact k1
        · rw [e2]
          exact k2
        · rw [e2]
          omega
        · rw [e2, f2 a.row b.black_king_location.2 (by omega)]
          exact k4
    · refine Or.inr ⟨k1.trans r1, by omega, k3, ?_⟩
      rw [← r1]
      exact k4

theorem fenRowStep_RowInv (st : RowState) (ch : Char) (st' : RowState)
    (h : fenRowStep st ch = .ok st') : RowInv st st' := by
  obtain ⟨h1, h2, h3, h4, h5, h6, h7, h8⟩ := fenRowStep_ok_inv st ch st' h
  exact ⟨h1, h2, h3, h4, h5, h6, h7, h8⟩

theorem processRowChars_RowInv (cs : List Char) :
    ∀ (st st' : RowState), processRowChars st cs = .ok st' →
      RowInv st st' := by
  induction cs with
  | nil =>
    intro st st' h
    injection h with h
    subst h
    exact RowInv.refl st
  | cons ch cs ih =>
    intro st st' h
    simp only [processRowChars] at h
    split at h
    · next st1 h1 =>
      exact (fenRowStep_RowInv st ch st1 h1).trans (ih st1 st' h)
    · exact PRes.noConfusion h
    · exact PRes.noConfusion h

theorem processRows_inv (rs : List (List Char)) :
    ∀ (st st' : RowState), st.col = BOARD_START →
      processRows st rs = .ok st' → RowsInv st st' rs.length := by
  induction rs with
  | nil =>
    intro st st' hcol h
    injection h with h
    subst h
    show RowsInv st st 0
    refine ⟨by omega, hcol, fun i j _ => rfl, ?_, ?_, ?_, ?_, ?_⟩
    · intro i j h1 h2 h3 h4
      exact absurd h2 (by omega)
    · rw [Nat.add_zero, Finset.Ico_self, Finset.sum_empty, add_zero]
    · rw [Nat.add_zero, Finset.Ico_self, Finset.sum_empty, add_zero]
    · refine Or.inl ⟨rfl, ?_⟩
      intro i j h1 h2 h3 h4
      exact absurd h2 (by omega)
    · refine Or.inl ⟨rfl, ?_⟩
      intro i j h1 h2 h3 h4
      exact absurd h2 (by omega)
  | cons r rs ih =>
    intro st st' hcol h
    simp only [processRows] at h
    split at h
    · next st1 h1 =>
      split at h
      · exact PRes.noConfusion h
      · next hne =>
        have h10 : st1.col = 10 := (not_ne_iff.mp hne).trans rfl
        have hc2 : st.col = 2 := hcol.trans rfl
        obtain ⟨sr, sc, sf, sg, sw, sv, swk, sbk⟩ :=
          processRowChars_RowInv r st st1 h1
        obtain ⟨ir, ic, ifr, ig, iw, iv, iwk, ibk⟩ :=
          ih { st1 with row := st1.row + 1, col := BOARD_START } st' rfl h
        dsimp only at ir ifr ig iw iv iwk ibk
        show RowsInv st st' (rs.length + 1)
        refine ⟨by omega, ic, ?_, ?_, ?_, ?_, ?_, ?_⟩
        · intro i j hij
          exact (ifr i j (by omega)).trans (sf i j (by omega))
        · intro i j hi1 hi2 hj1 hj2
          by_cases hi : i = st.row
          · subst hi
            rw [ifr st.row j (by omega)]
            exact sg j (by omega) (by omega)
          · exact ig i j (by omega) (by omega) hj1 hj2
        · rw [iw, sw, hc2, h10, sr]
          have hcg : ∑ j ∈ Finset.Ico 2 10, whiteVal (st1.board st.row j) =
              ∑ j ∈ Finset.Ico 2 10, whiteVal (st'.board st.row j) := by
            refine Finset.sum_congr rfl ?_
            intro j hj
            rw [Finset.mem_Ico] at hj
            rw [ifr st.row j (by omega)]
          rw [hcg, add_assoc]
          congr 1
          have hb : st.row + (rs.length + 1) = st.row + 1 + rs.length := by
            omega
          rw [hb]
          conv_rhs => rw [Finset.sum_eq_sum_Ico_succ_bot
            (show st.row < st.row + 1 + rs.length by omega)]
        · rw [iv, sv, hc2, h10, sr]
          have hcg : ∑ j ∈ Finset.Ico 2 10, blackVal (st1.board st.row j) =
              ∑ j ∈ Finset.Ico 2 10, blackVal (st'.board st.row j) := by
            refine Finset.sum_congr rfl ?_
            intro j hj
            rw [Finset.mem_Ico] at hj
            rw [ifr st.row j (by omega)]
          rw [hcg, add_assoc]
          congr 1
          have hb : st.row + (rs.length + 1) = st.row + 1 + rs.length := by
            omega
          rw [hb]
          conv_rhs => rw [Finset.sum_eq_sum_Ico_succ_bot
            (show st.row < st.row + 1 + rs.length by omega)]
        · rcases iwk with ⟨ie, ino⟩ | ⟨ik1, ik2, ik3, ik4, ik5⟩
          · rcases swk with ⟨se, sno⟩ | ⟨sk1, sk2, sk3, sk4⟩
            · refine Or.inl ⟨ie.trans se, ?_⟩
              intro i j hi1 hi2 hj1 hj2
              by_cases hi : i = st.row
              · subst hi
                rw [ifr st.row j (by omega)]
                exact sno j (by omega) (by omega)
              · exact ino i j (by omega) (by omega) hj1 hj2
            · refine Or.inr ?_
              rw [ie]
              refine ⟨by omega, by omega, by omega, by omega, ?_⟩
              rw [sk1, ifr st.row st1.white_king_location.2 (by omega)]
              exact sk4
          · exact Or.inr ⟨by omega, by omega, ik3, ik4, ik5⟩
        · rcases ibk with ⟨ie, ino⟩ | ⟨ik1, ik2, ik3, ik4, ik5⟩
          · rcases sbk with ⟨se, sno⟩ | ⟨sk1, sk2, sk3, sk4⟩
            · refine Or.inl ⟨ie.trans se, ?_⟩
              intro i j hi1 hi2 hj1 hj2
              by_cases hi : i = st.row
              · subst hi
                rw [ifr st.row j (by omega)]
                exact sno j (by omega) (by omega)
              · exact ino i j (by omega) (by omega) hj1 hj2
            · refine Or.inr ?_
              rw [ie]
              refine ⟨by omega, by omega, by omega, by omega, ?_⟩
              rw [sk1, ifr st.row st1.black_king_location.2 (by omega)]
              exact sk4
          · exact Or.inr ⟨by omega, by omega, ik3, ik4, ik5⟩
    · exact PRes.noConfusion h
    · exact PRes.noConfusion h

theorem board_from_fen_en_passant_ok_inv (f2 f3 : List Char)
    (tm : PieceColor) (hm fm : Nat) (st : RowState) (bs : BoardState)
    (h : board_from_fen_en_passant f2 f3 tm hm fm st = .ok bs) :
    bs.board = st.board ∧
    bs.white_king_location = st.white_king_location ∧
    bs.black_king_location = st.black_king_location ∧
    bs.white_total_piece_value = st.white_piece_values ∧
    bs.black_total_piece_value = st.black_piece_values := by
  unfold board_from_fen_en_passant at h
  split at h
  · split at h
    · exact PRes.noConfusion h
    · injection h with h
      subst h
      exact ⟨rfl, rfl, rfl, rfl, rfl⟩
  · split at h
    · injection h with h
      subst h
      exact ⟨rfl, rfl, rfl, rfl, rfl⟩
    · exact PRes.noConfusion h
    · exact PRes.noConfusion h

theorem board_from_fen_after_to_move_ok_inv (f0 f2 f3 f4 f5 : List Char)
    (tm : PieceColor) (bs : BoardState)
    (h : board_from_fen_after_to_move f0 f2 f3 f4 f5 tm = .ok bs) :
    ∃ st : RowState,
      (splitOnChar '/' f0).length = 8 ∧
      processRows initRowState (splitOnChar '/' f0) = .ok st ∧
      bs.board = st.board ∧
      bs.white_king_location = st.white_king_location ∧
      bs.black_king_location = st.black_king_location ∧
      bs.white_total_piece_value = st.white_piece_values ∧
      bs.black_total_piece_value = st.black_piece_values := by
  simp only [board_from_fen_after_to_move] at h
  split at h
  · exact PRes.noConfusion h
  · split at h
    · exact PRes.noConfusion h
    · split at h
      · exact PRes.noConfusion h
      · next hlen =>
        split at h
        · exact PRes.noConfusion h
        · exact PRes.noConfusion h
        · next st hrows =>
          obtain ⟨e1, e2, e3, e4, e5⟩ :=
            board_from_fen_en_passant_ok_inv _ _ _ _ _ _ _ h
          exact ⟨st, not_ne_iff.mp hlen, hrows, e1, e2, e3, e4, e5⟩

theorem board_from_fen_ok_inv (fen : List Char) (bs : BoardState)
    (h : board_from_fen fen = .ok bs) :
    ∃ (rows : List (List Char)) (st : RowState),
      rows.length = 8 ∧ processRows initRowState rows = .ok st ∧
      bs.board = st.board ∧
      bs.white_king_location = st.white_king_location ∧
      bs.black_king_location = st.black_king_location ∧
      bs.white_total_piece_value = st.white_piece_values ∧
      bs.black_total_piece_value = st.black_piece_values := by
  unfold board_from_fen at h
  split at h
  · split at h
    · obtain ⟨st, h8, hrows, e⟩ :=
        board_from_fen_after_to_move_ok_inv _ _ _ _ _ _ _ h
      exact ⟨_, st, h8, hrows, e⟩
    · obtain ⟨st, h8, hrows, e⟩ :=
        board_from_fen_after_to_move_ok_inv _ _ _ _ _ _ _ h
      exact ⟨_, st, h8, hrows, e⟩
    · exact PRes.noConfusion h
  · exact PRes.noConfusion h

/-- C5: for every FEN string on which `board_from_fen` succeeds, every
cell of the resulting grid whose row or column lies outside 2..9 holds
the sentinel value, and no cell with both row and column in 2..9 holds
the sentinel value. -/
theorem c5_border_invariant (fen : List Char) (bs : BoardState)
    (h : board_from_fen fen = .ok bs) :
    ∀ i j : Nat,
      ((2 ≤ i ∧ i ≤ 9 ∧ 2 ≤ j ∧ j ≤ 9) → bs.board i j ≠ SENTINEL) ∧
      (¬(2 ≤ i ∧ i ≤ 9 ∧ 2 ≤ j ∧ j ≤ 9) → bs.board i j = SENTINEL) := by
  obtain ⟨rows, st, h8, hrows, hb, -, -, -, -⟩ := board_from_fen_ok_inv fen bs h
  have inv := processRows_inv rows initRowState st rfl hrows
  rw [h8] at inv
  have hrow0 : initRowState.row = 2 := rfl
  intro i j
  constructor
  · intro hin
    rw [hb]
    exact goodSquares_ne_sentinel _
      (inv.good i j (by omega) (by omega) (by omega) (by omega))
  · intro hout
    rw [hb, inv.frame i j (by omega)]
    rfl

/-- C5 (witness): the border invariant evaluated on the standard
starting position at the border cell (0, 0) and the playing cell
(2, 2). -/
theorem c5_border_invariant_witness :
    board_from_fen DEFAULT_FEN_STRING = .ok (fenState DEFAULT_FEN_STRING) ∧
    (fenState DEFAULT_FEN_STRING).board 0 0 = SENTINEL ∧
    (fenState DEFAULT_FEN_STRING).board 2 2 ≠ SENTINEL := by
  have hok : board_from_fen DEFAULT_FEN_STRING =
      .ok (fenState DEFAULT_FEN_STRING) := rfl
  have h5 := c5_border_invariant DEFAULT_FEN_STRING
    (fenState DEFAULT_FEN_STRING) hok
  exact ⟨hok, (h5 0 0).2 (by decide), (h5 2 2).1 (by decide)⟩

/-- C4 (counterexample): the claim requires placements with zero kings
to be rejected, but decoding the empty board succeeds, leaving both
cached king locations at the dummy value (0, 0). -/
theorem c4_counterexample :
    fenOk ("8/8/8/8/8/8/8/8 w KQkq - 0 1".toList) = true ∧
    (fenState ("8/8/8/8/8/8/8/8 w KQkq - 0 1".toList)).white_king_location
      = (0, 0) ∧
    (fenState ("8/8/8/8/8/8/8/8 w KQkq - 0 1".toList)).black_king_location
      = (0, 0) := by
  decide

/-- C4 (amended): `board_from_fen` performs no king-count validation.
On success, if the grid holds no white king (within the 12×12 array)
the cached white king location is the dummy value (0, 0); if the grid
holds a unique white king, the cache points at it; likewise for
black. -/
theorem c4_king_cache_amended (fen : List Char) (bs : BoardState)
    (h : board_from_fen fen = .ok bs) :
    ((∀ i j, i < 12 → j < 12 → bs.board i j ≠ WHITE + KING) →
      bs.white_king_location = (0, 0)) ∧
    (∀ r c, bs.board r c = WHITE + KING →
      (∀ i j, i < 12 → j < 12 → bs.board i j = WHITE + KING →
        i = r ∧ j = c) →
      bs.white_king_location = (r, c)) ∧
    ((∀ i j, i < 12 → j < 12 → bs.board i j ≠ BLACK + KING) →
      bs.black_king_location = (0, 0)) ∧
    (∀ r c, bs.board r c = BLACK + KING →
      (∀ i j, i < 12 → j < 12 → bs.board i j = BLACK + KING →
        i = r ∧ j = c) →
      bs.black_king_location = (r, c)) := by
  obtain ⟨rows, st, h8, hrows, hb, hwk, hbk, -, -⟩ :=
    board_from_fen_ok_inv fen bs h
  have inv := processRows_inv rows initRowState st rfl hrows
  rw [h8] at inv
  have hrow0 : initRowState.row = 2 := rfl
  have hborder : ∀ i j, (i < 2 ∨ 10 ≤ i ∨ j < 2 ∨ 10 ≤ j) →
      st.board i j = SENTINEL := by
    intro i j hij
    rw [inv.frame i j (by omega)]
    rfl
  refine ⟨?_, ?_, ?_, ?_⟩
  · intro hno
    rcases inv.wking with ⟨he, -⟩ | ⟨k1, k2, k3, k4, k5⟩
    · rw [hwk, he]
      rfl
    · exfalso
      exact hno st.white_king_location.1 st.white_king_location.2
        (by omega) (by omega) (by rw [hb]; exact k5)
  · intro r c hk huniq
    rcases inv.wking with ⟨-, hno⟩ | ⟨k1, k2, k3, k4, k5⟩
    · exfalso
      rw [hb] at hk
      by_cases hr : 2 ≤ r ∧ r < 10 ∧ 2 ≤ c ∧ c < 10
      · exact hno r c (by omega) (by omega) (by omega) (by omega) hk
      · rw [hborder r c (by omega)] at hk
        exact absurd hk (by decide)
    · obtain ⟨hr, hc⟩ := huniq st.white_king_location.1
        st.white_king_location.2 (by omega) (by omega)
        (by rw [hb]; exact k5)
      rw [hwk]
      exact Prod.ext hr hc
  · intro hno
    rcases inv.bking with ⟨he, -⟩ | ⟨k1, k2, k3, k4, k5⟩
    · rw [hbk, he]
      rfl
    · exfalso
      exact hno st.black_king_location.1 st.black_king_location.2
        (by omega) (by omega) (by rw [hb]; exact k5)
  · intro r c hk huniq
    rcases inv.bking with ⟨-, hno⟩ | ⟨k1, k2, k3, k4, k5⟩
    · exfalso
      rw [hb] at hk
      by_cases hr : 2 ≤ r ∧ r < 10 ∧ 2 ≤ c ∧ c < 10
      · exact hno r c (by omega) (by omega) (by omega) (by omega) hk
      · rw [hborder r c (by omega)] at hk
        exact absurd hk (by decide)
    · obtain ⟨hr, hc⟩ := huniq st.black_king_location.1
        st.black_king_location.2 (by omega) (by omega)
        (by rw [hb]; exact k5)
      rw [hbk]
      exact Prod.ext hr hc

/-- C4 (witness): on the standard starting position, the unique white
king sits at (9, 6) and the unique black king at (2, 6), and the caches
point there; on the empty board both caches are (0, 0). -/
theorem c4_king_cache_amended_witness :
    (fenState DEFAULT_FEN_STRING).white_king_location = (9, 6) ∧
    (fenState DEFAULT_FEN_STRING).black_king_location = (2, 6) ∧
    (fenState ("8/8/8/8/8/8/8/8 b - - 3 7".toList)).white_king_location
      = (0, 0) := by
  have hok : board_from_fen DEFAULT_FEN_STRING =
      .ok (fenState DEFAULT_FEN_STRING) := rfl
  have h4 := c4_king_cache_amended DEFAULT_FEN_STRING
    (fenState DEFAULT_FEN_STRING) hok
  have hok2 : board_from_fen ("8/8/8/8/8/8/8/8 b - - 3 7".toList) =
      .ok (fenState ("8/8/8/8/8/8/8/8 b - - 3 7".toList)) := rfl
  have h42 := c4_king_cache_amended ("8/8/8/8/8/8/8/8 b - - 3 7".toList)
    (fenState ("8/8/8/8/8/8/8/8 b - - 3 7".toList)) hok2
  refine ⟨h4.2.1 9 6 (by decide) ?_, h4.2.2.2 2 6 (by decide) ?_,
    h42.1 ?_⟩
  · intro i j hi hj
    interval_cases i <;> interval_cases j <;> decide
  · intro i j hi hj
    interval_cases i <;> interval_cases j <;> decide
  · intro i j hi hj
    interval_cases i <;> interval_cases j <;> decide

/-- C8: for every FEN string on which `board_from_fen` succeeds, the
cached material sums equal the sums of the standard piece values of
each color over the playing surface of the grid; in particular the
standard starting position yields
20000+900+2*500+2*330+2*320+8*100 for both colors. -/
theorem c8_material_sums :
    (∀ (fen : List Char) (bs : BoardState), board_from_fen fen = .ok bs →
      bs.white_total_piece_value = gridColorSum bs.board whiteVal ∧
      bs.black_total_piece_value = gridColorSum bs.board blackVal) ∧
    fenOk DEFAULT_FEN_STRING = true ∧
    (fenState DEFAULT_FEN_STRING).white_total_piece_value =
      20000 + 900 + 2 * 500 + 2 * 330 + 2 * 320 + 8 * 100 ∧
    (fenState DEFAULT_FEN_STRING).black_total_piece_value =
      20000 + 900 + 2 * 500 + 2 * 330 + 2 * 320 + 8 * 100 := by
  refine ⟨?_, by decide, by decide, by decide⟩
  intro fen bs h
  obtain ⟨rows, st, h8, hrows, hb, -, -, hwv, hbv⟩ :=
    board_from_fen_ok_inv fen bs h
  have inv := processRows_inv rows initRowState st rfl hrows
  rw [h8] at inv
  have e0w : initRowState.white_piece_values = 0 := rfl
  have e0b : initRowState.black_piece_values = 0 := rfl
  have hrow0 : initRowState.row = 2 := rfl
  constructor
  · rw [hwv, hb, inv.wsum, e0w, zero_add, hrow0,
      show (2 : Nat) + 8 = 10 from rfl]
    rfl
  · rw [hbv, hb, inv.bsum, e0b, zero_add, hrow0,
      show (2 : Nat) + 8 = 10 from rfl]
    rfl

/-- C8 (witness): the universal material-sum property applied to the
standard starting position. -/
theorem c8_material_sums_witness :
    board_from_fen DEFAULT_FEN_STRING = .ok (fenState DEFAULT_FEN_STRING) ∧
    (fenState DEFAULT_FEN_STRING).white_total_piece_value =
      gridColorSum (fenState DEFAULT_FEN_STRING).board whiteVal ∧
    (fenState DEFAULT_FEN_STRING).black_total_piece_value =
      gridColorSum (fenState DEFAULT_FEN_STRING).board blackVal := by
  have hok : board_from_fen DEFAULT_FEN_STRING =
      .ok (fenState DEFAULT_FEN_STRING) := rfl
  exact ⟨hok, (c8_material_sums.1 _ _ hok).1, (c8_material_sums.1 _ _ hok).2⟩

/-- C9: a digit whose skip would push the column cursor past the rank
boundary makes the placement loop fail with the index error; a
rank-group whose cursor does not land exactly on the boundary makes it
fail with the incomplete-row error; a rank-group suceeds only when the
cursor lands exactly on the boundary; and any placement-loop error is
the error `board_from_fen` returns. -/
theorem c9_rank_overflow_underflow :
    (∀ (st : RowState) (ch : Char) (cs : List Char), ch.isDigit = true →
      ch.toNat - '0'.toNat + st.col > BOARD_END →
      processRowChars st (ch :: cs) =
        .err "Could not parse fen string: Index out of bounds") ∧
    (∀ (st : RowState) (r : List Char) (rs : List (List Char))
        (st1 : RowState),
      processRowChars st r = .ok st1 → st1.col ≠ BOARD_END →
      processRows st (r :: rs) =
        .err "Could not parse fen string: Complete row was not specified") ∧
    (∀ (st : RowState) (r : List Char) (rs : List (List Char))
        (out : RowState),
      processRows st (r :: rs) = .ok out →
      ∃ st1, processRowChars st r = .ok st1 ∧ st1.col = BOARD_END) ∧
    (∀ (f0 f2 f3 f4 f5 : List Char) (tm : PieceColor) (hm fm : Nat)
        (e : String),
      parseU8 f4 = some hm → parseU8 f5 = some fm →
      (splitOnChar '/' f0).length = 8 →
      processRows initRowState (splitOnChar '/' f0) = .err e →
      board_from_fen_after_to_move f0 f2 f3 f4 f5 tm = .err e) := by
  refine ⟨?_, ?_, ?_, ?_⟩
  · intro st ch cs hd hover
    have hstep : fenRowStep st ch =
        .err "Could not parse fen string: Index out of bounds" := by
      simp only [fenRowStep]
      rw [if_pos hd, if_pos hover]
    simp only [processRowChars, hstep]
  · intro st r rs st1 h1 hne
    simp only [processRows, h1]
    rw [if_pos hne]
  · intro st r rs out h
    simp only [processRows] at h
    split at h
    · next st1 h1 =>
      split at h
      · exact PRes.noConfusion h
      · next hne => exact ⟨st1, h1, not_ne_iff.mp hne⟩
    · exact PRes.noConfusion h
    · exact PRes.noConfusion h
  · intro f0 f2 f3 f4 f5 tm hm fm e h4 h5 h8 herr
    simp only [board_from_fen_after_to_move, h4, h5, herr]
    rw [if_neg (not_ne_iff.mpr h8)]

/-- C9 (witness): the three failure and success modes at concrete
inputs: the digit 9 overflows from the left margin, a single piece
leaves the cursor short of the boundary, the digit 8 lands exactly on
it, and a placement error propagates out of the parser. -/
theorem c9_rank_overflow_underflow_witness :
    processRowChars initRowState ['9', 'p'] =
      .err "Could not parse fen string: Index out of bounds" ∧
    processRows initRowState [['p']] =
      .err "Could not parse fen string: Complete row was not specified" ∧
    (processRowChars initRowState ['8'] =
      .ok (okState (processRowChars initRowState ['8']) initRowState) ∧
     (okState (processRowChars initRowState ['8']) initRowState).col =
      BOARD_END) ∧
    board_from_fen_after_to_move ("9/8/8/8/8/8/8/8".toList)
      ("KQkq".toList) ("-".toList) ("0".toList) ("1".toList)
      PieceColor.White =
      .err "Could not parse fen string: Index out of bounds" := by
  obtain ⟨hover, hunder, hexact, hprop⟩ := c9_rank_overflow_underflow
  refine ⟨?_, ?_, ?_, ?_⟩
  · exact hover initRowState '9' ['p'] (by decide) (by decide)
  · exact hunder initRowState ['p'] []
      (okState (processRowChars initRowState ['p']) initRowState) rfl
      (by decide)
  · obtain ⟨st1, hh, hc⟩ := hexact initRowState ['8'] []
      (okState (processRows initRowState [['8']]) initRowState) rfl
    constructor
    · rfl
    · rw [hh] at *
      exact hc
  · exact hprop ("9/8/8/8/8/8/8/8".toList) ("KQkq".toList) ("-".toList)
      ("0".toList) ("1".toList) PieceColor.White 0 1
      "Could not parse fen string: Index out of bounds"
      (by decide) (by decide) (by decide) rfl

theorem board_from_fen_after_to_move_stages (f0 f2 f3 f4 f5 : List Char)
    (tm : PieceColor) (hm fm : Nat) (st : RowState)
    (hhm : parseU8 f4 = some hm) (hfm : parseU8 f5 = some fm)
    (h8 : (splitOnChar '/' f0).length = 8)
    (hrows : processRows initRowState (splitOnChar '/' f0) = .ok st) :
    board_from_fen_after_to_move f0 f2 f3 f4 f5 tm =
      board_from_fen_en_passant f2 f3 tm hm fm st := by
  simp only [board_from_fen_after_to_move, hhm, hfm, hrows]
  rw [if_neg (not_ne_iff.mpr h8)]

theorem board_from_fen_stages (fen f0 f1 f2 f3 f4 f5 : List Char)
    (hfields : fenFields fen = [f0, f1, f2, f3, f4, f5])
    (hf1 : f1 = ['w'] ∨ f1 = ['b']) :
    ∃ tm, board_from_fen fen =
      board_from_fen_after_to_move f0 f2 f3 f4 f5 tm := by
  rcases hf1 with rfl | rfl
  · exact ⟨PieceColor.White, by simp only [board_from_fen, hfields]⟩
  · exact ⟨PieceColor.Black, by simp only [board_from_fen, hfields]⟩

/-- C1 (counterexample): the claim requires a FEN string whose
en-passant field is the two-character non-square "z4" to be rejected,
but `board_from_fen` accepts it, storing no en-passant target. -/
theorem c1_counterexample :
    fenOk ("8/8/8/8/8/8/8/8 w - z4 0 1".toList) = true ∧
    (fenState ("8/8/8/8/8/8/8/8 w - z4 0 1".toList)).pawn_double_move
      = none := by
  decide

/-- C1 (amended): when all earlier decode stages succeed,
`board_from_fen` rejects the en-passant field only when its byte length
differs from 2 and it is not "-"; a two-character field is always
accepted, the result of `algebraic_pairs_to_board_position` — even a
conversion failure, as for a bad file letter such as in "z4" — being
stored unvalidated as the en-passant target. -/
theorem c1_en_passant_amended :
    (∀ (fen f0 f1 f2 f3 f4 f5 : List Char) (hm fm : Nat) (st : RowState),
      fenFields fen = [f0, f1, f2, f3, f4, f5] →
      (f1 = ['w'] ∨ f1 = ['b']) →
      parseU8 f4 = some hm → parseU8 f5 = some fm →
      (splitOnChar '/' f0).length = 8 →
      processRows initRowState (splitOnChar '/' f0) = .ok st →
      utf8Len f3 ≠ 2 → f3 ≠ ['-'] →
      board_from_fen fen =
        .err "Could not parse fen string: En passant string not valid") ∧
    (∀ (fen f0 f1 f2 f3 f4 f5 : List Char) (hm fm : Nat) (st : RowState)
        (v : Option Point),
      fenFields fen = [f0, f1, f2, f3, f4, f5] →
      (f1 = ['w'] ∨ f1 = ['b']) →
      parseU8 f4 = some hm → parseU8 f5 = some fm →
      (splitOnChar '/' f0).length = 8 →
      processRows initRowState (splitOnChar '/' f0) = .ok st →
      utf8Len f3 = 2 →
      algebraic_pairs_to_board_position f3 = .ok v →
      ∃ bs, board_from_fen fen = .ok bs ∧ bs.pawn_double_move = v) := by
  constructor
  · intro fen f0 f1 f2 f3 f4 f5 hm fm st hfields hf1 hhm hfm h8 hrows
      hlen hdash
    obtain ⟨tm, hbf⟩ := board_from_fen_stages fen f0 f1 f2 f3 f4 f5
      hfields hf1
    rw [hbf, board_from_fen_after_to_move_stages f0 f2 f3 f4 f5 tm hm fm
      st hhm hfm h8 hrows]
    simp only [board_from_fen_en_passant]
    rw [if_pos hlen, if_pos hdash]
  · intro fen f0 f1 f2 f3 f4 f5 hm fm st v hfields hf1 hhm hfm h8 hrows
      hlen ha2b
    obtain ⟨tm, hbf⟩ := board_from_fen_stages fen f0 f1 f2 f3 f4 f5
      hfields hf1
    rw [hbf, board_from_fen_after_to_move_stages f0 f2 f3 f4 f5 tm hm fm
      st hhm hfm h8 hrows]
    simp only [board_from_fen_en_passant, ha2b]
    rw [if_neg (not_ne_iff.mpr hlen)]
    exact ⟨_, rfl, rfl⟩

/-- C1 (witness): the amended behavior at concrete inputs — a
three-character en-passant field is rejected, while the two-character
non-square "z4" is accepted with no target stored. -/
theorem c1_en_passant_amended_witness :
    board_from_fen ("8/8/8/8/8/8/8/8 w - zzz 0 1".toList) =
      .err "Could not parse fen string: En passant string not valid" ∧
    (∃ bs, board_from_fen ("8/8/8/8/8/8/8/8 b - z4 0 1".toList) = .ok bs ∧
      bs.pawn_double_move = none) := by
  constructor
  · exact c1_en_passant_amended.1 ("8/8/8/8/8/8/8/8 w - zzz 0 1".toList)
      ("8/8/8/8/8/8/8/8".toList) (['w']) (['-']) ("zzz".toList)
      (['0']) (['1']) 0 1
      (okState (processRows initRowState
        (splitOnChar '/' ("8/8/8/8/8/8/8/8".toList))) initRowState)
      (by decide) (Or.inl rfl) (by decide) (by decide) (by decide) rfl
      (by decide) (by decide)
  · exact c1_en_passant_amended.2 ("8/8/8/8/8/8/8/8 b - z4 0 1".toList)
      ("8/8/8/8/8/8/8/8".toList) (['b']) (['-']) ("z4".toList)
      (['0']) (['1']) 0 1
      (okState (processRows initRowState
        (splitOnChar '/' ("8/8/8/8/8/8/8/8".toList))) initRowState)
      none
      (by decide) (Or.inr rfl) (by decide) (by decide) (by decide) rfl
      (by decide) (by decide)

/-- C6 (witness): the round trip at the concrete point (2, 2) and the
concrete text "e4". -/
theorem c6_coordinate_roundtrip_witness :
    algebraic_pairs_to_board_position
        (board_position_to_algebraic_pair (2, 2)) = .ok (some (2, 2)) ∧
    ∃ p, algebraic_pairs_to_board_position ['e', '4'] = .ok (some p) ∧
      board_position_to_algebraic_pair p = ['e', '4'] := by
  exact ⟨c6_coordinate_roundtrip.1 2 2 (by decide) (by decide) (by decide)
          (by decide),
        c6_coordinate_roundtrip.2 'e' '4' (by decide) (by decide)⟩

end Walleye
